import Mathlib

/-!
A shallow embedding of the `epub_query` package (files `parser.py` and
`query.py`) together with proofs about its specification.

Python strings are modelled as Lean `String` (a structure over `List Char`);
Python built-ins (`str.split`, `str.join`, `str.strip`, `bytes.decode`,
`re.escape`, dict assignment) are embedded as executable Lean functions with
the semantics documented for CPython.  The external libraries are embedded at
the boundary the code uses them through: BeautifulSoup documents become a
`Node` tree with `find` / `get_text` implemented per the bs4 documentation,
the `re` module becomes an abstract engine (`ReModule`) whose compiled
patterns expose the `findall` result shape, and `ebooklib` books become a
manifest item list plus a spine id list.
-/

/-! ## Python character / string primitives -/

/-- The ASCII whitespace characters recognised by Python's `str.strip()` and
`str.split()` (the model is restricted to ASCII input). -/
def isPySpace (c : Char) : Bool :=
  c = ' ' || c = '\t' || c = '\n' || c = '\r' || c = '\x0b' || c = '\x0c'

/-- Python `str.strip()` on the character list level. -/
def pyStripL (l : List Char) : List Char :=
  ((l.dropWhile isPySpace).reverse.dropWhile isPySpace).reverse

/-- Python `str.strip()`. -/
def pyStrip (s : String) : String :=
  String.mk (pyStripL s.toList)

/-- Python `str.split(sep)` for a one-character separator, on character
lists: `splitCharAux sep cs acc` scans `cs` with the reversed current field
in `acc`. -/
def splitCharAux (sep : Char) : List Char → List Char → List (List Char)
  | [], acc => [acc.reverse]
  | c :: cs, acc =>
    if c = sep then acc.reverse :: splitCharAux sep cs []
    else splitCharAux sep cs (c :: acc)

/-- Python `content.split("\n")`. -/
def splitNl (s : String) : List String :=
  (splitCharAux '\n' s.toList []).map String.mk

/-- Python `"\n".join(ls)` on the character-list level. -/
def joinCharL (sep : Char) : List (List Char) → List Char
  | [] => []
  | [l] => l
  | l :: ls => l ++ sep :: joinCharL sep ls

/-- Python `"\n".join(ls)`. -/
def joinNl (ls : List String) : String :=
  String.mk (joinCharL '\n' (ls.map String.toList))

/-- Python `s.split("\n\n")` on character lists: greedy left-to-right,
non-overlapping occurrences of the two-character separator. -/
def splitBlankAux : List Char → List Char → List (List Char)
  | [], acc => [acc.reverse]
  | [c], acc => [(c :: acc).reverse]
  | c :: d :: cs, acc =>
    if c = '\n' ∧ d = '\n' then acc.reverse :: splitBlankAux cs []
    else splitBlankAux (d :: cs) (c :: acc)

/-- Python `s.split("\n\n")`. -/
def splitBlank (s : String) : List String :=
  (splitBlankAux s.toList []).map String.mk

/-- Python `"\n\n".join(ls)` on the character-list level. -/
def joinBlankL : List (List Char) → List Char
  | [] => []
  | [l] => l
  | l :: ls => l ++ '\n' :: '\n' :: joinBlankL ls

/-- Python `"\n\n".join(ls)`. -/
def joinBlank (ls : List String) : String :=
  String.mk (joinBlankL (ls.map String.toList))

/-- Python `str.split()` with no arguments (split on runs of whitespace,
empty tokens discarded), on character lists. -/
def pySplitWsAux : List Char → List Char → List (List Char)
  | [], acc => if acc = [] then [] else [acc.reverse]
  | c :: cs, acc =>
    if isPySpace c then
      if acc = [] then pySplitWsAux cs []
      else acc.reverse :: pySplitWsAux cs []
    else pySplitWsAux cs (c :: acc)

/-- Python `str.split()` with no arguments. -/
def pySplitWs (s : String) : List String :=
  (pySplitWsAux s.toList []).map String.mk

/-! ## BeautifulSoup document model

A parsed markup document is a tree of elements and text nodes.  `find` and
`get_text` follow the bs4 semantics the code relies on: `find` returns the
first matching element in document (pre)order, `get_text(separator, strip=True)`
joins the stripped non-empty text fragments with the separator. -/

inductive Node where
  | text (s : String)
  | elem (tag : String) (children : List Node)

mutual

/-- All text fragments of a node, in document order (bs4 `strings`). -/
def Node.strings : Node → List String
  | .text s => [s]
  | .elem _ cs => Node.stringsList cs

/-- All text fragments of a forest, in document order. -/
def Node.stringsList : List Node → List String
  | [] => []
  | n :: ns => Node.strings n ++ Node.stringsList ns

end

/-- bs4 `node.get_text(separator=sep, strip=True)`: strip every text
fragment, drop the ones that become empty, join with `sep`. -/
def Node.getTextStrip (sep : String) (n : Node) : String :=
  String.intercalate sep ((n.strings.map pyStrip).filter (fun s => s ≠ ""))

mutual

/-- bs4 `soup.find(tag)`: first element with the given name, in document
order (the node itself included). -/
def Node.find (tag : String) : Node → Option Node
  | .text _ => none
  | .elem t cs => if t = tag then some (.elem t cs) else Node.findList tag cs

/-- `find` over a forest, first hit wins. -/
def Node.findList (tag : String) : List Node → Option Node
  | [] => none
  | n :: ns =>
    match Node.find tag n with
    | some r => some r
    | none => Node.findList tag ns

end

/-! ## Strict UTF-8 decoding (Python `bytes.decode("utf-8")`)

CPython's strict UTF-8 decoder: rejects stray continuation bytes, overlong
encodings, surrogate code points and values above U+10FFFF; raises
`UnicodeDecodeError` (here: `none`) on the first invalid sequence. -/

/-- A UTF-8 continuation byte. -/
def contByte (b : Nat) : Bool := 0x80 ≤ b && b ≤ 0xBF

/-- Strict UTF-8 decoding of a byte list; `none` models a raised
`UnicodeDecodeError`. -/
def decodeUtf8 : List Nat → Option (List Char)
  | [] => some []
  | b :: bs =>
    if b < 0x80 then
      (decodeUtf8 bs).map (fun cs => Char.ofNat b :: cs)
    else if 0xC2 ≤ b && b ≤ 0xDF then
      match bs with
      | b1 :: bs1 =>
        if contByte b1 then
          (decodeUtf8 bs1).map (fun cs =>
            Char.ofNat ((b - 0xC0) * 0x40 + (b1 - 0x80)) :: cs)
        else none
      | [] => none
    else if 0xE0 ≤ b && b ≤ 0xEF then
      match bs with
      | b1 :: b2 :: bs2 =>
        if (if b = 0xE0 then 0xA0 else 0x80) ≤ b1 &&
            b1 ≤ (if b = 0xED then 0x9F else 0xBF) && contByte b2 then
          (decodeUtf8 bs2).map (fun cs =>
            Char.ofNat ((b - 0xE0) * 0x1000 + (b1 - 0x80) * 0x40 + (b2 - 0x80)) :: cs)
        else none
      | _ => none
    else if 0xF0 ≤ b && b ≤ 0xF4 then
      match bs with
      | b1 :: b2 :: b3 :: bs3 =>
        if (if b = 0xF0 then 0x90 else 0x80) ≤ b1 &&
            b1 ≤ (if b = 0xF4 then 0x8F else 0xBF) && contByte b2 && contByte b3 then
          (decodeUtf8 bs3).map (fun cs =>
            Char.ofNat ((b - 0xF0) * 0x40000 + (b1 - 0x80) * 0x1000 +
              (b2 - 0x80) * 0x40 + (b3 - 0x80)) :: cs)
        else none
      | _ => none
    else none

/-! ## Data model (`parser.py`, `query.py` dataclasses) -/

/-- `parser.Chapter`: a chapter extracted from an epub. -/
structure Chapter where
  title : String
  content : String
  file_name : String
deriving Repr, DecidableEq

/-- `query.SearchResult`: one search match with context.  The Python field
`match` is a Lean keyword and is rendered `matched`. -/
structure SearchResult where
  chapter_title : String
  file_name : String
  matched : String
  context : String
  line_number : Nat
deriving Repr, DecidableEq

/-- One manifest item as the parser consumes it: `get_name()` is the item's
internal path, `content` its raw bytes (`get_content()`). -/
structure EpubItem where
  file_name : String
  content : List Nat
deriving Repr, DecidableEq

/-! ## Chapter extraction (`EpubParser.get_chapters`, parser.py lines 60-90)

The BeautifulSoup constructor (string to tree) is the abstracted external
step and is passed in as `parse`; everything the repository's code does with
the resulting tree is embedded concretely. -/

/-- Lines 66-88 of `parser.py`: text extraction and title derivation from a
parsed document.  `get_text(separator="\n", strip=True)` gives the content;
the title is the stripped text of the first tag found among
`["h1", "h2", "h3", "title"]` (bs4 `Tag.__bool__` is always `True`, so the
loop breaks at the first tag that is present, even one with empty text), and
falls back to `item.get_name()` when that text is empty or no tag is found. -/
def chapterFromSoup (soup : Node) (name : String) : Chapter :=
  let text := Node.getTextStrip "\n" soup
  let title :=
    match ["h1", "h2", "h3", "title"].findSome? (fun t => Node.find t soup) with
    | some heading => Node.getTextStrip "" heading
    | none => ""
  let title := if title = "" then name else title
  { title := title, content := text, file_name := name }

/-- `EpubParser.get_chapters`: decode each document item strictly as UTF-8
(`.decode("utf-8")`; a failure raises, modelled as `Except.error`), parse it,
and extract a `Chapter`. -/
def getChapters (parse : String → Node) : List EpubItem → Except String (List Chapter)
  | [] => .ok []
  | it :: its =>
    match decodeUtf8 it.content with
    | none => .error "UnicodeDecodeError"
    | some cs =>
      match getChapters parse its with
      | .error e => .error e
      | .ok chs => .ok (chapterFromSoup (parse (String.mk cs)) it.file_name :: chs)

/-- `EpubParser.get_full_text`: `"\n\n".join(chapter.content for chapter in
self.get_chapters())`. -/
def getFullText (parse : String → Node) (items : List EpubItem) : Except String String :=
  match getChapters parse items with
  | .error e => .error e
  | .ok chs => .ok (joinBlank (chs.map (fun ch => ch.content)))

/-! ## ebooklib book model (manifest + spine)

`epub.read_epub` stores manifest items in manifest-document order and the
spine as a separate id list; `get_items_of_type` filters `book.items` in
stored order and never consults the spine. -/

/-- `ebooklib.ITEM_DOCUMENT`. -/
def ITEM_DOCUMENT : Nat := 9

/-- One manifest item of a loaded book. -/
structure BookItem where
  idref : String
  file_name : String
  itemType : Nat
  content : List Nat
deriving Repr, DecidableEq

/-- A loaded `EpubBook`: manifest items in manifest order, spine ids in
declared reading order. -/
structure EpubBook where
  items : List BookItem
  spine : List String
deriving Repr, DecidableEq

/-- `book.get_items_of_type(t)`: filter the stored item list, order
preserved. -/
def getItemsOfType (t : Nat) (book : EpubBook) : List BookItem :=
  book.items.filter (fun it => it.itemType = t)

/-- `get_chapters` as invoked on a loaded book: iterate the document items
in `get_items_of_type` order. -/
def getChaptersBook (parse : String → Node) (book : EpubBook) : Except String (List Chapter) :=
  getChapters parse ((getItemsOfType ITEM_DOCUMENT book).map
    (fun it => { file_name := it.file_name, content := it.content }))

/-- The spine resolved against the manifest: the container's declared
reading order as a list of internal paths. -/
def readingOrder (book : EpubBook) : List String :=
  book.spine.filterMap (fun idref =>
    (book.items.find? (fun it => it.idref = idref)).map (fun it => it.file_name))

/-! ## The `re` module boundary

The repository feeds a pattern to `re.compile` and uses only `findall` on
the result.  A compiled pattern is modelled by its number of capturing
groups together with the list of (whole match, group texts) per input line;
`findall`'s documented result shape (strings for 0 or 1 group, tuples
otherwise) and the code's unwrapping of it are embedded concretely, the
pattern grammar itself stays abstract behind `ReModule.compile`. -/

/-- A compiled regular expression: group count plus, for each input string,
the non-overlapping matches left to right as (whole text, group texts). -/
structure CompiledPattern where
  numGroups : Nat
  matchesOf : String → List (String × List String)

/-- An element of the list `re.findall` returns: a string, or a tuple of
group texts when the pattern has two or more groups. -/
inductive PyMatchValue where
  | str (s : String)
  | tuple (ts : List String)
deriving Repr, DecidableEq

/-- `compiled.findall(line)` per the `re` documentation: whole matches when
the pattern has no group, the group's text with exactly one group, tuples of
group texts otherwise. -/
def findall (p : CompiledPattern) (s : String) : List PyMatchValue :=
  (p.matchesOf s).map (fun m =>
    if p.numGroups = 0 then .str m.1
    else if p.numGroups = 1 then .str (m.2.getD 0 "")
    else .tuple m.2)

/-- query.py line 77: `match if isinstance(match, str) else match[0]`. -/
def matchValueToStr : PyMatchValue → String
  | .str s => s
  | .tuple ts => ts.getD 0 ""

/-- Python `re.escape` special characters (CPython's `_special_chars_map`):
`()[]\x7b\x7d?*+-|^$\.&~# \t\n\r\v\f`. -/
def reSpecial (c : Char) : Bool :=
  c = '(' || c = ')' || c = '[' || c = ']' || c = '\x7b' || c = '\x7d' ||
  c = '?' || c = '*' || c = '+' || c = '-' || c = '|' || c = '^' || c = '$' ||
  c = '\\' || c = '.' || c = '&' || c = '~' || c = '#' || c = ' ' ||
  c = '\t' || c = '\n' || c = '\r' || c = '\x0b' || c = '\x0c'

/-- `re.escape` on one character. -/
def reEscapeChar (c : Char) : List Char :=
  if reSpecial c then ['\\', c] else [c]

/-- Python `re.escape`. -/
def reEscape (s : String) : String :=
  String.mk (s.toList.flatMap reEscapeChar)

/-- The `re` module: `compile` takes the pattern and the
`re.IGNORECASE` flag and either yields a compiled pattern or raises
`re.error` (modelled as `Except.error`).  `escape_ok` is the library's
guarantee that an escaped pattern is always syntactically valid. -/
structure ReModule where
  compile : String → Bool → Except String CompiledPattern
  escape_ok : ∀ p ci, ∃ cp, compile (reEscape p) ci = Except.ok cp

/-! ## `EpubQuery.search` (query.py lines 35-84) -/

/-- The body of the inner loop of `search` for line `i` of a chapter (query.py
lines 65-82): run `findall` on the line; when it matches, build the context
`"\n".join(lines[max(0, i - context_lines) : min(len(lines), i + context_lines + 1)])`
and emit one result per match. -/
def lineResults (cp : CompiledPattern) (contextLines : Nat) (ch : Chapter)
    (lines : List String) (i : Nat) : List SearchResult :=
  let line := lines.getD i ""
  let ms := findall cp line
  if ms = [] then []
  else
    let start := i - contextLines
    let stop := min lines.length (i + contextLines + 1)
    let context := joinNl ((lines.drop start).take (stop - start))
    ms.map (fun m =>
      { chapter_title := ch.title
        file_name := ch.file_name
        matched := matchValueToStr m
        context := context
        line_number := i + 1 })

/-- `search` restricted to one chapter: split the content on newlines and
scan every line. -/
def searchChapter (cp : CompiledPattern) (contextLines : Nat) (ch : Chapter) :
    List SearchResult :=
  let lines := splitNl ch.content
  (List.range lines.length).flatMap (lineResults cp contextLines ch lines)

/-- The matching phase of `search` over the chapter list. -/
def searchCompiled (cp : CompiledPattern) (contextLines : Nat)
    (chapters : List Chapter) : List SearchResult :=
  chapters.flatMap (searchChapter cp contextLines)

/-! ## The `EpubQuery` handle: lazy chapter cache (query.py lines 24-33) -/

/-- The mutable state of an `EpubQuery` handle: what `parser.get_chapters()`
would produce (fixed for the handle's lifetime), the `_chapters` cache, and
a count of how many times extraction actually ran. -/
structure EpubQueryState where
  bookChapters : List Chapter
  cache : Option (List Chapter)
  parseCount : Nat
deriving Repr, DecidableEq

/-- The `chapters` property: return the cache if populated, otherwise run
extraction once and populate it. -/
def chaptersAcc (s : EpubQueryState) : List Chapter × EpubQueryState :=
  match s.cache with
  | some c => (c, s)
  | none =>
    (s.bookChapters,
     { s with cache := some s.bookChapters, parseCount := s.parseCount + 1 })

/-- `EpubQuery.search`: escape the pattern unless `regex` is set, compile it
with `re.IGNORECASE` iff not `case_sensitive` — a compile failure raises
before `self.chapters` is ever touched — then run the matching phase over
the (lazily loaded) chapters. -/
def searchSt (re : ReModule) (s : EpubQueryState) (pattern : String)
    (caseSensitive : Bool) (contextLines : Nat) (regex : Bool) :
    Except String (List SearchResult) × EpubQueryState :=
  match re.compile (if regex then pattern else reEscape pattern) (!caseSensitive) with
  | .error e => (.error e, s)
  | .ok cp =>
    let (chs, s1) := chaptersAcc s
    (.ok (searchCompiled cp contextLines chs), s1)

/-! ## `EpubQuery.word_count` (query.py lines 97-107) -/

/-- Python dict assignment `d[k] = v` on an insertion-ordered association
list: update in place when the key exists, append otherwise. -/
def dictInsert (k : String) (v : Nat) : List (String × Nat) → List (String × Nat)
  | [] => [(k, v)]
  | (k1, v1) :: rest =>
    if k1 = k then (k, v) :: rest else (k1, v1) :: dictInsert k v rest

/-- Python `dict.get`/`d[k]` lookup on the association-list model. -/
def dictLookup (k : String) : List (String × Nat) → Option Nat
  | [] => none
  | (k1, v1) :: rest => if k1 = k then some v1 else dictLookup k rest

/-- `word_count`: for each chapter, `len(chapter.content.split())` keyed by
title; `total` sums over all chapters.  Returned as (total, by_chapter). -/
def wordCount (chapters : List Chapter) : Nat × List (String × Nat) :=
  chapters.foldl
    (fun acc ch =>
      let words := (pySplitWs ch.content).length
      (acc.1 + words, dictInsert ch.title words acc.2))
    (0, [])

/-! ## Concrete matchers (instances of the `re` boundary)

Used to instantiate the abstract engine on concrete inputs: a literal
substring matcher with the semantics of a compiled `re.escape`d pattern
(non-overlapping, left to right, optionally case-insensitive, reporting the
text as it occurs in the haystack), and a toy `ReModule` whose pattern
grammar rejects a bare `(`. -/

/-- Character comparison, case-folded when `ci` is set (ASCII model of
`re.IGNORECASE`). -/
def eqCi (ci : Bool) (a b : Char) : Bool :=
  if ci then a.toLower = b.toLower else a = b

/-- Does the haystack start with the needle, under `eqCi`? -/
def startsWithCi (ci : Bool) : List Char → List Char → Bool
  | [], _ => true
  | _ :: _, [] => false
  | p :: ps, c :: cs => eqCi ci p c && startsWithCi ci ps cs

/-- All non-overlapping occurrences of the needle `n0 :: nrest`, left to
right, reported as they occur in the haystack; the `Nat` argument counts
haystack positions still to skip after an emitted match (0 at the start). -/
def litFindAux (ci : Bool) (n0 : Char) (nrest : List Char) :
    List Char → Nat → List (List Char)
  | [], _ => []
  | _ :: cs, k + 1 => litFindAux ci n0 nrest cs k
  | c :: cs, 0 =>
    if eqCi ci n0 c && startsWithCi ci nrest cs then
      (c :: cs.take nrest.length) :: litFindAux ci n0 nrest cs nrest.length
    else litFindAux ci n0 nrest cs 0

/-- The compiled form of a literal (escaped) non-empty pattern: no capturing
groups, matches are the literal occurrences. -/
def literalCompiled (ci : Bool) (n0 : Char) (nrest : List Char) : CompiledPattern :=
  { numGroups := 0
    matchesOf := fun s => (litFindAux ci n0 nrest s.toList 0).map (fun l => (String.mk l, [])) }

/-- The toy engine's pattern grammar: a backslash escapes the next character
(and may not dangle), a bare `(` is a syntax error; yields the literal
needle. -/
def toyUnescape : List Char → Option (List Char)
  | [] => some []
  | c :: cs =>
    if c = '\\' then
      match cs with
      | [] => none
      | d :: cs1 => (toyUnescape cs1).map (fun l => d :: l)
    else if c = '(' then none
    else (toyUnescape cs).map (fun l => c :: l)

/-- The toy engine's `re.compile`. -/
def toyCompile (pat : String) (_ci : Bool) : Except String CompiledPattern :=
  match toyUnescape pat.toList with
  | none => .error "missing ), unterminated subpattern"
  | some [] => .ok { numGroups := 0, matchesOf := fun _ => [] }
  | some (n0 :: nrest) => .ok (literalCompiled _ci n0 nrest)

theorem toyUnescape_escape (l : List Char) :
    toyUnescape (l.flatMap reEscapeChar) = some l := by
  induction l with
  | nil => rfl
  | cons c l ih =>
    by_cases hs : reSpecial c
    · simp [reEscapeChar, hs, toyUnescape, ih]
    · have hb : c ≠ '\\' := by rintro rfl; simp [reSpecial] at hs
      have hp : c ≠ '(' := by rintro rfl; simp [reSpecial] at hs
      have hstep : toyUnescape (c :: l.flatMap reEscapeChar) =
          (toyUnescape (l.flatMap reEscapeChar)).map (fun t => c :: t) := by
        conv_lhs => rw [toyUnescape.eq_def]
        simp [hb, hp]
      simp [reEscapeChar, hs, hstep, ih]

/-- The toy `re` module. -/
def toyRe : ReModule where
  compile := toyCompile
  escape_ok := by
    intro p ci
    cases hd : p.data with
    | nil =>
      refine ⟨{ numGroups := 0, matchesOf := fun _ => [] }, ?_⟩
      unfold toyCompile
      rw [show (reEscape p).toList = p.data.flatMap reEscapeChar from rfl, hd]
      rfl
    | cons c cs =>
      refine ⟨literalCompiled ci c cs, ?_⟩
      unfold toyCompile
      rw [show (reEscape p).toList = p.data.flatMap reEscapeChar from rfl, hd,
        toyUnescape_escape]

/-! ## Helper lemmas: split / join round-trips -/

/-- Does the character list contain two consecutive newlines (an embedded
blank line)? -/
def hasBlankPair : List Char → Bool
  | [] => false
  | c :: cs => (c = '\n' && cs.head? = some '\n') || hasBlankPair cs

theorem mk_toList (s : String) : String.mk s.toList = s := rfl

theorem toList_mk (l : List Char) : (String.mk l).toList = l := rfl

theorem splitCharAux_no_sep (sep : Char) (l acc : List Char) (h : sep ∉ l) :
    splitCharAux sep l acc = [acc.reverse ++ l] := by
  induction l generalizing acc with
  | nil => simp [splitCharAux]
  | cons c cs ih =>
    have hc : c ≠ sep := fun hc => h (hc ▸ List.mem_cons_self c cs)
    have hcs : sep ∉ cs := fun hm => h (List.mem_cons_of_mem c hm)
    simp [splitCharAux, hc, ih _ hcs]

theorem splitCharAux_append_sep (sep : Char) (l rest acc : List Char) (h : sep ∉ l) :
    splitCharAux sep (l ++ sep :: rest) acc =
      (acc.reverse ++ l) :: splitCharAux sep rest [] := by
  induction l generalizing acc with
  | nil => simp [splitCharAux]
  | cons c cs ih =>
    have hc : c ≠ sep := fun hc => h (hc ▸ List.mem_cons_self c cs)
    have hcs : sep ∉ cs := fun hm => h (List.mem_cons_of_mem c hm)
    simp [splitCharAux, hc, ih _ hcs]

theorem splitCharAux_joinCharL (sep : Char) (lss : List (List Char))
    (hne : lss ≠ []) (h : ∀ l ∈ lss, sep ∉ l) :
    splitCharAux sep (joinCharL sep lss) [] = lss := by
  induction lss with
  | nil => exact absurd rfl hne
  | cons l ls ih =>
    cases ls with
    | nil =>
      simp [joinCharL, splitCharAux_no_sep sep l [] (h l (List.mem_cons_self l []))]
    | cons l2 ls2 =>
      have h1 : sep ∉ l := h l (List.mem_cons_self _ _)
      have h2 : ∀ x ∈ l2 :: ls2, sep ∉ x := fun x hx => h x (List.mem_cons_of_mem l hx)
      rw [show joinCharL sep (l :: l2 :: ls2) = l ++ sep :: joinCharL sep (l2 :: ls2) from rfl,
        splitCharAux_append_sep sep l _ [] h1, ih (by simp) h2]
      simp

/-- `"\n".join` then `split("\n")` recovers the pieces when none of them
contains a newline. -/
theorem splitNl_joinNl (ls : List String) (hne : ls ≠ [])
    (h : ∀ s ∈ ls, '\n' ∉ s.toList) :
    splitNl (joinNl ls) = ls := by
  unfold splitNl joinNl
  rw [toList_mk, splitCharAux_joinCharL '\n' (ls.map String.toList)
    (by simpa using hne)
    (by intro l hl; obtain ⟨s, hs, rfl⟩ := List.mem_map.1 hl; exact h s hs)]
  rw [List.map_map, show String.mk ∘ String.toList = id from funext fun s => rfl,
    List.map_id]

theorem splitCharAux_mem_no_sep (sep : Char) (l acc f : List Char)
    (hacc : sep ∉ acc) (hf : f ∈ splitCharAux sep l acc) : sep ∉ f := by
  induction l generalizing acc with
  | nil =>
    simp only [splitCharAux, List.mem_singleton] at hf
    subst hf
    simpa using hacc
  | cons c cs ih =>
    by_cases hc : c = sep
    · simp only [splitCharAux, hc, if_pos rfl] at hf
      rcases List.mem_cons.1 hf with h1 | h1
      · subst h1; simpa using hacc
      · exact ih [] (by simp) h1
    · simp only [splitCharAux, hc, if_neg hc] at hf
      exact ih (c :: acc) (by simpa using ⟨fun h => hc h.symm, hacc⟩) hf

/-- Every field produced by `split("\n")` is newline-free. -/
theorem splitNl_no_nl (s f : String) (hf : f ∈ splitNl s) : '\n' ∉ f.toList := by
  unfold splitNl at hf
  obtain ⟨l, hl, rfl⟩ := List.mem_map.1 hf
  exact splitCharAux_mem_no_sep '\n' s.toList [] l (by simp) hl

theorem splitBlankAux_no_pair (l : List Char) (acc : List Char)
    (h : hasBlankPair l = false) :
    splitBlankAux l acc = [acc.reverse ++ l] := by
  induction l generalizing acc with
  | nil => simp [splitBlankAux]
  | cons c cs ih =>
    rw [hasBlankPair, Bool.or_eq_false_iff] at h
    cases cs with
    | nil => simp [splitBlankAux]
    | cons d cs2 =>
      have hcond : ¬(c = '\n' ∧ d = '\n') := by
        rintro ⟨rfl, rfl⟩
        simp at h
      rw [splitBlankAux, if_neg hcond, ih _ h.2]
      simp

theorem splitBlankAux_append_sep (l rest acc : List Char)
    (h1 : hasBlankPair l = false) (h2 : l.getLast? ≠ some '\n') :
    splitBlankAux (l ++ '\n' :: '\n' :: rest) acc =
      (acc.reverse ++ l) :: splitBlankAux rest [] := by
  induction l generalizing acc with
  | nil =>
    rw [List.nil_append, splitBlankAux, if_pos ⟨rfl, rfl⟩]
    simp
  | cons c cs ih =>
    rw [hasBlankPair, Bool.or_eq_false_iff] at h1
    cases cs with
    | nil =>
      have hc : c ≠ '\n' := by
        intro hc
        exact h2 (by simp [hc])
      rw [List.cons_append, List.nil_append, splitBlankAux,
        if_neg (fun hcd => hc hcd.1), splitBlankAux, if_pos ⟨rfl, rfl⟩]
      simp
    | cons d cs2 =>
      have hcond : ¬(c = '\n' ∧ d = '\n') := by
        rintro ⟨rfl, rfl⟩
        simp at h1
      rw [List.cons_append, List.cons_append, splitBlankAux, if_neg hcond,
        show d :: (cs2 ++ '\n' :: '\n' :: rest) = (d :: cs2) ++ '\n' :: '\n' :: rest
          from rfl,
        ih (c :: acc) h1.2 (by simpa using h2)]
      simp

theorem splitBlankAux_joinBlankL (lss : List (List Char)) (hne : lss ≠ [])
    (h : ∀ l ∈ lss, hasBlankPair l = false ∧ l.getLast? ≠ some '\n') :
    splitBlankAux (joinBlankL lss) [] = lss := by
  induction lss with
  | nil => exact absurd rfl hne
  | cons l ls ih =>
    cases ls with
    | nil =>
      have := h l (List.mem_cons_self _ _)
      rw [show joinBlankL [l] = l from rfl, splitBlankAux_no_pair l [] this.1]
      simp
    | cons l2 ls2 =>
      have hl := h l (List.mem_cons_self _ _)
      have hrest : ∀ x ∈ l2 :: ls2, hasBlankPair x = false ∧ x.getLast? ≠ some '\n' :=
        fun x hx => h x (List.mem_cons_of_mem l hx)
      rw [show joinBlankL (l :: l2 :: ls2) = l ++ '\n' :: '\n' :: joinBlankL (l2 :: ls2)
          from rfl,
        splitBlankAux_append_sep l _ [] hl.1 hl.2, ih (by simp) hrest]
      simp

/-- `"\n\n".join` then `split("\n\n")` recovers the pieces when none of them
contains an embedded blank line or ends with a newline. -/
theorem splitBlank_joinBlank (ls : List String) (hne : ls ≠ [])
    (h : ∀ s ∈ ls, hasBlankPair s.toList = false ∧ s.toList.getLast? ≠ some '\n') :
    splitBlank (joinBlank ls) = ls := by
  unfold splitBlank joinBlank
  rw [toList_mk, splitBlankAux_joinBlankL (ls.map String.toList)
    (by simpa using hne)
    (by intro l hl; obtain ⟨s, hs, rfl⟩ := List.mem_map.1 hl; exact h s hs)]
  rw [List.map_map, show String.mk ∘ String.toList = id from funext fun s => rfl,
    List.map_id]

/-! ## Helper lemmas: extraction -/

/-- An `ok` run of `get_chapters` produces exactly one chapter per item, in
item order, carrying the item's internal path as `file_name`. -/
theorem getChapters_ok_shape (parse : String → Node) (items : List EpubItem)
    (chs : List Chapter) (h : getChapters parse items = .ok chs) :
    chs.map (fun ch => ch.file_name) = items.map (fun it => it.file_name) := by
  induction items generalizing chs with
  | nil =>
    simp only [getChapters] at h
    cases h
    rfl
  | cons it its ih =>
    simp only [getChapters] at h
    cases hd : decodeUtf8 it.content with
    | none => rw [hd] at h; cases h
    | some cs =>
      rw [hd] at h
      cases hrec : getChapters parse its with
      | error e => rw [hrec] at h; cases h
      | ok chs2 =>
        rw [hrec] at h
        cases h
        simp [ih chs2 hrec, chapterFromSoup]

/-- When every item's bytes decode, `get_chapters` succeeds with one chapter
per item. -/
theorem getChapters_ok_of_decodable (parse : String → Node) (items : List EpubItem)
    (h : ∀ it ∈ items, (decodeUtf8 it.content).isSome) :
    ∃ chs, getChapters parse items = .ok chs ∧ chs.length = items.length := by
  induction items with
  | nil => exact ⟨[], rfl, rfl⟩
  | cons it its ih =>
    obtain ⟨chs, hchs, hlen⟩ := ih (fun x hx => h x (List.mem_cons_of_mem it hx))
    cases hd : decodeUtf8 it.content with
    | none =>
      have := h it (List.mem_cons_self _ _)
      rw [hd] at this
      cases this
    | some cs =>
      refine ⟨chapterFromSoup (parse (String.mk cs)) it.file_name :: chs, ?_, by simp [hlen]⟩
      simp only [getChapters, hd, hchs]

/-! ## Helper lemmas: search result characterization -/

/-- Membership in the full match phase, unfolded down to a single line. -/
theorem mem_searchCompiled {cp : CompiledPattern} {c : Nat} {chs : List Chapter}
    {r : SearchResult} (h : r ∈ searchCompiled cp c chs) :
    ∃ ch ∈ chs, ∃ i < (splitNl ch.content).length,
      r ∈ lineResults cp c ch (splitNl ch.content) i := by
  unfold searchCompiled at h
  rw [List.mem_flatMap] at h
  obtain ⟨ch, hch, hr⟩ := h
  unfold searchChapter at hr
  rw [List.mem_flatMap] at hr
  obtain ⟨i, hi, hri⟩ := hr
  exact ⟨ch, hch, i, List.mem_range.1 hi, hri⟩

/-- Shape of one result emitted for line `i`. -/
theorem mem_lineResults {cp : CompiledPattern} {c : Nat} {ch : Chapter}
    {lines : List String} {i : Nat} {r : SearchResult}
    (h : r ∈ lineResults cp c ch lines i) :
    ∃ m ∈ findall cp (lines.getD i ""),
      r = { chapter_title := ch.title
            file_name := ch.file_name
            matched := matchValueToStr m
            context := joinNl ((lines.drop (i - c)).take
              (min lines.length (i + c + 1) - (i - c)))
            line_number := i + 1 } := by
  simp only [lineResults] at h
  split at h
  · exact absurd h (List.not_mem_nil r)
  · rw [List.mem_map] at h
    obtain ⟨m, hm, hr⟩ := h
    exact ⟨m, hm, hr.symm⟩

/-- An `ok` run of `search` comes from a successful compile of the (possibly
escaped) pattern and is the match phase over the lazily loaded chapters. -/
theorem searchSt_ok (re : ReModule) (s : EpubQueryState) (pat : String)
    (cs : Bool) (c : Nat) (rx : Bool) (rs : List SearchResult)
    (h : (searchSt re s pat cs c rx).1 = .ok rs) :
    ∃ cp, re.compile (if rx then pat else reEscape pat) (!cs) = .ok cp ∧
      rs = searchCompiled cp c (chaptersAcc s).1 := by
  unfold searchSt at h
  cases hc : re.compile (if rx then pat else reEscape pat) (!cs) with
  | error e => rw [hc] at h; cases h
  | ok cp =>
    rw [hc] at h
    refine ⟨cp, rfl, ?_⟩
    rcases hca : chaptersAcc s with ⟨chs, s1⟩
    rw [hca] at h
    cases h
    rfl

theorem findSome?_option_map {α β γ : Type} (f : α → Option β) (g : β → γ)
    (l : List α) :
    l.findSome? (fun t => (f t).map g) = (l.findSome? f).map g := by
  induction l with
  | nil => rfl
  | cons x xs ih => cases hf : f x <;> simp [List.findSome?_cons, hf, ih]

theorem dictInsert_of_not_mem (k : String) (v : Nat) (d : List (String × Nat))
    (h : ∀ kv ∈ d, kv.1 ≠ k) : dictInsert k v d = d ++ [(k, v)] := by
  induction d with
  | nil => rfl
  | cons kv rest ih =>
    have h1 : kv.1 ≠ k := h kv (List.mem_cons_self _ _)
    cases kv with
    | mk a b =>
      simp only [dictInsert, if_neg h1, List.cons_append, List.cons.injEq, true_and]
      exact ih (fun x hx => h x (List.mem_cons_of_mem _ hx))

theorem wordCount_foldl (chs : List Chapter) (t0 : Nat) (d0 : List (String × Nat))
    (hnodup : (chs.map (fun ch => ch.title)).Nodup)
    (hdisj : ∀ ch ∈ chs, ∀ kv ∈ d0, kv.1 ≠ ch.title) :
    chs.foldl
      (fun acc ch =>
        let words := (pySplitWs ch.content).length
        (acc.1 + words, dictInsert ch.title words acc.2)) (t0, d0) =
      (t0 + (chs.map (fun ch => (pySplitWs ch.content).length)).sum,
       d0 ++ chs.map (fun ch => (ch.title, (pySplitWs ch.content).length))) := by
  induction chs generalizing t0 d0 with
  | nil => simp
  | cons ch rest ih =>
    simp only [List.map_cons, List.nodup_cons] at hnodup
    simp only [List.foldl_cons]
    rw [dictInsert_of_not_mem _ _ _
      (fun kv hkv => hdisj ch (List.mem_cons_self _ _) kv hkv)]
    rw [ih (t0 + (pySplitWs ch.content).length) _ hnodup.2 ?_]
    · simp only [List.map_cons, List.sum_cons, List.cons_append, Prod.mk.injEq]
      constructor
      · omega
      · simp
    · intro ch2 hch2 kv hkv
      rcases List.mem_append.1 hkv with hkv1 | hkv1
      · exact hdisj ch2 (List.mem_cons_of_mem _ hch2) kv hkv1
      · rw [List.mem_singleton] at hkv1
        subst hkv1
        intro hteq
        simp only at hteq
        apply hnodup.1
        rw [hteq]
        exact List.mem_map_of_mem (fun x => x.title) hch2

/-- The matched line is an element of the context slice. -/
theorem getD_mem_slice (lines : List String) (i c : Nat) (hi : i < lines.length) :
    lines.getD i "" ∈
      (lines.drop (i - c)).take (min lines.length (i + c + 1) - (i - c)) := by
  have h1 : ((lines.drop (i - c)).take (min lines.length (i + c + 1) - (i - c)))[i - (i - c)]? =
      some (lines.getD i "") := by
    rw [List.getElem?_take_of_lt (by omega), List.getElem?_drop,
      show i - c + (i - (i - c)) = i by omega, List.getElem?_eq_getElem hi]
    simp [List.getD_eq_getElem?_getD, List.getElem?_eq_getElem hi]
  exact List.getElem?_mem h1

theorem joinNl_single (s : String) : joinNl [s] = s := rfl

/-! ## Claim theorems -/

/-- A trivial BeautifulSoup constructor: every document parses to an empty
tree (used to instantiate the abstract `parse` argument on concrete inputs). -/
def emptyParse : String → Node := fun _ => Node.elem "[document]" []

/-- C1, counterexample: the decode step of `get_chapters` is strict
(`.decode("utf-8")` with no `errors="replace"`): a document item whose bytes
contain the invalid byte `0xFF` makes extraction raise `UnicodeDecodeError`
instead of yielding a best-effort `Chapter`, so chapter extraction does fail
on invalid UTF-8, whatever the parsed markup would have been. -/
theorem claim_C1_counterexample :
    decodeUtf8 [0xFF] = none ∧
    getChapters emptyParse [{ file_name := "ch1.xhtml", content := [0xFF] }] =
      .error "UnicodeDecodeError" :=
  ⟨rfl, rfl⟩

/-- C1 (amended): per-chapter extraction never fails on malformed markup
(any parse tree yields a `Chapter`), and when every document item's raw
bytes are valid UTF-8 the extraction yields one `Chapter` per item; but
invalid UTF-8 bytes raise a strict decode error instead of being replaced. -/
theorem claim_C1_amended (parse : String → Node) (items : List EpubItem)
    (h : ∀ it ∈ items, (decodeUtf8 it.content).isSome) :
    ∃ chs, getChapters parse items = .ok chs ∧ chs.length = items.length :=
  getChapters_ok_of_decodable parse items h

/-- Witness for `claim_C1_amended` at a concrete two-item input. -/
theorem claim_C1_witness :
    (∀ it ∈ [({ file_name := "c1.xhtml", content := [104, 105] } : EpubItem),
        { file_name := "c2.xhtml", content := [0x74, 0xC3, 0xA9] }],
      (decodeUtf8 it.content).isSome) ∧
    ∃ chs, getChapters emptyParse
        [{ file_name := "c1.xhtml", content := [104, 105] },
         { file_name := "c2.xhtml", content := [0x74, 0xC3, 0xA9] }] = .ok chs ∧
      chs.length = 2 :=
  ⟨by decide, claim_C1_amended emptyParse _ (by decide)⟩

/-- The amended title rule, stated from the spec side: the title is the
stripped text of the first tag present among h1, h2, h3, title; if no tag is
present, or the first present tag's text is empty, the title is the item's
full internal path. -/
def titleSpec (soup : Node) (name : String) : String :=
  match ["h1", "h2", "h3", "title"].findSome?
      (fun t => (Node.find t soup).map (Node.getTextStrip "")) with
  | some t => if t = "" then name else t
  | none => name

/-- A document with no heading and no title element. -/
def soupNoHeading : Node :=
  Node.elem "[document]" [Node.elem "body" [Node.text "no headings here"]]

/-- A document whose first heading (an `h1`) is empty while an `h2` carries
real text. -/
def soupEmptyH1 : Node :=
  Node.elem "[document]"
    [Node.elem "body" [Node.elem "h1" [], Node.elem "h2" [Node.text "Real Title"]]]

/-- C2, counterexample: (i) the heading-less fallback is the item's full
internal path `"text/ch05.xhtml"`, not its file-name component
`"ch05.xhtml"`; (ii) when the first tag found (`h1`) has empty text the code
falls back to the path even though a non-empty `h2` exists, so the title is
neither the claim's "first found element's text" (empty) nor a later
heading's text; (iii) with no heading and an empty internal path the title
is empty. -/
theorem claim_C2_counterexample :
    (chapterFromSoup soupNoHeading "text/ch05.xhtml").title = "text/ch05.xhtml" ∧
    (chapterFromSoup soupNoHeading "text/ch05.xhtml").title ≠ "ch05.xhtml" ∧
    (chapterFromSoup soupEmptyH1 "fn.xhtml").title = "fn.xhtml" ∧
    (chapterFromSoup soupEmptyH1 "fn.xhtml").title ≠ "Real Title" ∧
    (chapterFromSoup soupEmptyH1 "fn.xhtml").title ≠ "" ∧
    (chapterFromSoup soupNoHeading "").title = "" := by
  decide

/-- C2 (amended): the extracted title is the stripped text of the first tag
present in priority order h1, h2, h3, title; when no tag is present or the
first present tag's stripped text is empty, the title is the chapter's full
internal path; for a non-empty internal path the title is never empty. -/
theorem claim_C2_amended (soup : Node) (name : String) (hname : name ≠ "") :
    (chapterFromSoup soup name).title = titleSpec soup name ∧
    (chapterFromSoup soup name).title ≠ "" ∧
    (chapterFromSoup soup name).file_name = name := by
  unfold chapterFromSoup titleSpec
  rw [findSome?_option_map]
  cases hfs : ["h1", "h2", "h3", "title"].findSome? (fun t => Node.find t soup) with
  | none => simp [hname]
  | some hd =>
    by_cases hg : Node.getTextStrip "" hd = ""
    · simp [hg, hname]
    · simp [hg, hname]

/-- Witness for `claim_C2_amended`: the heading-less document at internal
path `"text/ch05.xhtml"`. -/
theorem claim_C2_witness :
    ("text/ch05.xhtml" : String) ≠ "" ∧
    ((chapterFromSoup soupNoHeading "text/ch05.xhtml").title =
        titleSpec soupNoHeading "text/ch05.xhtml" ∧
      (chapterFromSoup soupNoHeading "text/ch05.xhtml").title ≠ "" ∧
      (chapterFromSoup soupNoHeading "text/ch05.xhtml").file_name = "text/ch05.xhtml") :=
  ⟨by decide, claim_C2_amended soupNoHeading "text/ch05.xhtml" (by decide)⟩

/-- A book whose spine declares the two document items in the opposite of
their manifest order. -/
def bookSpineSwap : EpubBook :=
  { items := [{ idref := "id1", file_name := "a.xhtml", itemType := ITEM_DOCUMENT,
                content := [120] },
              { idref := "id2", file_name := "b.xhtml", itemType := ITEM_DOCUMENT,
                content := [121] }]
    spine := ["id2", "id1"] }

/-- C3, counterexample: `get_chapters` iterates `get_items_of_type`, i.e.
manifest order, and never consults the spine; on a book whose spine order is
the reverse of its manifest order the produced chapter sequence
(`a.xhtml`, `b.xhtml`) differs from the declared reading order
(`b.xhtml`, `a.xhtml`).  `Chapter` also carries no `order_index` field at
all. -/
theorem claim_C3_counterexample :
    readingOrder bookSpineSwap = ["b.xhtml", "a.xhtml"] ∧
    getChaptersBook emptyParse bookSpineSwap =
      .ok [{ title := "a.xhtml", content := "", file_name := "a.xhtml" },
           { title := "b.xhtml", content := "", file_name := "b.xhtml" }] ∧
    (["a.xhtml", "b.xhtml"] : List String) ≠ ["b.xhtml", "a.xhtml"] :=
  ⟨rfl, rfl, by decide⟩

/-- C3 (amended): the chapter list is produced in manifest item order (the
order of document items in `book.items`), one chapter per document item,
positions in the returned list being the contiguous indices `0..n-1`; it
matches the spine's declared order only when the manifest order does. -/
theorem claim_C3_amended (parse : String → Node) (book : EpubBook)
    (chs : List Chapter) (h : getChaptersBook parse book = .ok chs) :
    chs.map (fun ch => ch.file_name) =
      (getItemsOfType ITEM_DOCUMENT book).map (fun it => it.file_name) ∧
    chs.length = (getItemsOfType ITEM_DOCUMENT book).length := by
  have h1 := getChapters_ok_shape parse _ chs h
  have h2 : chs.map (fun ch => ch.file_name) =
      (getItemsOfType ITEM_DOCUMENT book).map (fun it => it.file_name) := by
    rw [h1, List.map_map]
    rfl
  refine ⟨h2, ?_⟩
  have := congrArg List.length h2
  simpa using this

/-- Witness for `claim_C3_amended` on the concrete two-item book. -/
theorem claim_C3_witness :
    getChaptersBook emptyParse bookSpineSwap =
      .ok [{ title := "a.xhtml", content := "", file_name := "a.xhtml" },
           { title := "b.xhtml", content := "", file_name := "b.xhtml" }] ∧
    ([{ title := "a.xhtml", content := "", file_name := "a.xhtml" },
      { title := "b.xhtml", content := "", file_name := "b.xhtml" }] : List Chapter).map
        (fun ch => ch.file_name) =
      (getItemsOfType ITEM_DOCUMENT bookSpineSwap).map (fun it => it.file_name) ∧
    ([{ title := "a.xhtml", content := "", file_name := "a.xhtml" },
      { title := "b.xhtml", content := "", file_name := "b.xhtml" }] : List Chapter).length =
      (getItemsOfType ITEM_DOCUMENT bookSpineSwap).length :=
  ⟨rfl, (claim_C3_amended emptyParse bookSpineSwap _ rfl).1,
    (claim_C3_amended emptyParse bookSpineSwap _ rfl).2⟩

/-- The spec's inclusive context window: lines `a` through `b` of the line
list, in original order. -/
def sliceIncl (lines : List String) (a b : Nat) : List String :=
  (lines.drop a).take (b + 1 - a)

/-- C4: every result of `search` for a match on 0-based line `i` of a
chapter carries as context exactly the lines of the inclusive window
`[max(0, i - context_lines), min(lastLine, i + context_lines)]` joined by a
single newline (with natural subtraction, `i - c` is `max(0, i - c)`); with
`context_lines = 0` the context is exactly the matched line. -/
theorem claim_C4 (re : ReModule) (s : EpubQueryState) (pat : String)
    (cs : Bool) (c : Nat) (rx : Bool) (rs : List SearchResult) (r : SearchResult)
    (hok : (searchSt re s pat cs c rx).1 = .ok rs) (hr : r ∈ rs) :
    ∃ ch ∈ (chaptersAcc s).1, ∃ i < (splitNl ch.content).length,
      r.line_number = i + 1 ∧
      r.context = joinNl (sliceIncl (splitNl ch.content) (i - c)
        (min ((splitNl ch.content).length - 1) (i + c))) ∧
      (c = 0 → r.context = (splitNl ch.content).getD i "") := by
  obtain ⟨cp, hcomp, rfl⟩ := searchSt_ok re s pat cs c rx rs hok
  obtain ⟨ch, hch, i, hi, hline⟩ := mem_searchCompiled hr
  obtain ⟨m, hm, rfl⟩ := mem_lineResults hline
  refine ⟨ch, hch, i, hi, rfl, ?_, ?_⟩
  · show joinNl ((splitNl ch.content).drop (i - c) |>.take
        (min (splitNl ch.content).length (i + c + 1) - (i - c))) = _
    unfold sliceIncl
    rw [show min (splitNl ch.content).length (i + c + 1) - (i - c) =
      min ((splitNl ch.content).length - 1) (i + c) + 1 - (i - c) by omega]
  · intro hc0
    subst hc0
    show joinNl ((splitNl ch.content).drop (i - 0) |>.take
        (min (splitNl ch.content).length (i + 0 + 1) - (i - 0))) = _
    rw [show i - 0 = i by omega,
      show min (splitNl ch.content).length (i + 0 + 1) - i = 1 by omega,
      List.drop_eq_getElem_cons hi, List.take_succ_cons, List.take_zero,
      joinNl_single, List.getD_eq_getElem?_getD, List.getElem?_eq_getElem hi]
    rfl

/-- A fresh `EpubQuery` handle over the spec's two-chapter sample book. -/
def handleTwoChapters : EpubQueryState :=
  { bookChapters :=
      [{ title := "C1", content := "Alpha line one\nAlpha line two",
         file_name := "c1.xhtml" },
       { title := "C2", content := "Beta line one", file_name := "c2.xhtml" }]
    cache := none
    parseCount := 0 }

/-- First result of searching `"line"` over `handleTwoChapters`. -/
def sampleResult1 : SearchResult :=
  { chapter_title := "C1", file_name := "c1.xhtml", matched := "line",
    context := "Alpha line one\nAlpha line two", line_number := 1 }

/-- Second result of searching `"line"` over `handleTwoChapters`. -/
def sampleResult2 : SearchResult :=
  { chapter_title := "C1", file_name := "c1.xhtml", matched := "line",
    context := "Alpha line one\nAlpha line two", line_number := 2 }

/-- Third result of searching `"line"` over `handleTwoChapters`. -/
def sampleResult3 : SearchResult :=
  { chapter_title := "C2", file_name := "c2.xhtml", matched := "line",
    context := "Beta line one", line_number := 1 }

/-- Witness for `claim_C4` on the spec's sample search
(`search("line", case_sensitive=false, regex=false, context_lines=1)`). -/
theorem claim_C4_witness :
    (searchSt toyRe handleTwoChapters "line" false 1 false).1 =
      .ok [sampleResult1, sampleResult2, sampleResult3] ∧
    sampleResult1 ∈ [sampleResult1, sampleResult2, sampleResult3] ∧
    (∃ ch ∈ (chaptersAcc handleTwoChapters).1, ∃ i < (splitNl ch.content).length,
      sampleResult1.line_number = i + 1 ∧
      sampleResult1.context = joinNl (sliceIncl (splitNl ch.content) (i - 1)
        (min ((splitNl ch.content).length - 1) (i + 1))) ∧
      (1 = 0 → sampleResult1.context = (splitNl ch.content).getD i "")) :=
  ⟨rfl, by decide,
    claim_C4 toyRe handleTwoChapters "line" false 1 false
      [sampleResult1, sampleResult2, sampleResult3] sampleResult1 rfl (by decide)⟩

/-- C5: (i) literal mode (`regex=false`) escapes the pattern before
compiling, so it never raises a pattern-syntax error; (ii) in regex mode a
malformed pattern raises the compile error before any matching and leaves
the handle's state (including its chapter cache) untouched; (iii) a
subsequent valid search on the same handle still works. -/
theorem claim_C5 (re : ReModule) (s : EpubQueryState) (litPat badPat litPat2 : String)
    (cs cs2 : Bool) (c c2 : Nat) (e : String)
    (hbad : re.compile badPat (!cs) = .error e) :
    (∃ res, (searchSt re s litPat cs c false).1 = .ok res) ∧
    searchSt re s badPat cs c true = (.error e, s) ∧
    (∃ res, (searchSt re s litPat2 cs2 c2 false).1 = .ok res) := by
  refine ⟨?_, ?_, ?_⟩
  · obtain ⟨cp, hcp⟩ := re.escape_ok litPat (!cs)
    refine ⟨searchCompiled cp c (chaptersAcc s).1, ?_⟩
    unfold searchSt
    rw [if_neg (by simp), hcp]
  · unfold searchSt
    rw [if_pos rfl, hbad]
  · obtain ⟨cp, hcp⟩ := re.escape_ok litPat2 (!cs2)
    refine ⟨searchCompiled cp c2 (chaptersAcc s).1, ?_⟩
    unfold searchSt
    rw [if_neg (by simp), hcp]

/-- Witness for `claim_C5` on the toy engine: the malformed regex `"("`. -/
theorem claim_C5_witness :
    toyRe.compile "(" (!false) = .error "missing ), unterminated subpattern" ∧
    ((∃ res, (searchSt toyRe handleTwoChapters "a+b" false 1 false).1 = .ok res) ∧
      searchSt toyRe handleTwoChapters "(" false 1 true =
        (.error "missing ), unterminated subpattern", handleTwoChapters) ∧
      (∃ res, (searchSt toyRe handleTwoChapters "line" false 1 false).1 = .ok res)) :=
  ⟨rfl, claim_C5 toyRe handleTwoChapters "a+b" "(" "line" false false 1 1
    "missing ), unterminated subpattern" rfl⟩

/-- C6: `matched_text` is the first capturing group's text when the compiled
pattern has at least one group and the whole match's text otherwise
(`findall`'s shapes unwrapped by `match if isinstance(match, str) else
match[0]`); and the bundled concrete scenario: case-insensitive literal
search for `"the"` over `"The cat sat."` reports the literally occurring
casing `"The"`. -/
theorem claim_C6 (cp : CompiledPattern) (c : Nat) (chs : List Chapter)
    (r : SearchResult) (hr : r ∈ searchCompiled cp c chs) :
    (∃ ch ∈ chs, ∃ i, ∃ mp ∈ cp.matchesOf ((splitNl ch.content).getD i ""),
      r.matched = if cp.numGroups = 0 then mp.1 else mp.2.getD 0 "") ∧
    searchCompiled (literalCompiled true 't' ['h', 'e']) 1
        [{ title := "T", content := "The cat sat.", file_name := "f" }] =
      [{ chapter_title := "T", file_name := "f", matched := "The",
         context := "The cat sat.", line_number := 1 }] := by
  refine ⟨?_, rfl⟩
  obtain ⟨ch, hch, i, hi, hline⟩ := mem_searchCompiled hr
  obtain ⟨m, hm, hrr⟩ := mem_lineResults hline
  unfold findall at hm
  rw [List.mem_map] at hm
  obtain ⟨mp, hmp, hmm⟩ := hm
  refine ⟨ch, hch, i, mp, hmp, ?_⟩
  subst hrr
  subst hmm
  by_cases h0 : cp.numGroups = 0
  · simp [matchValueToStr, h0]
  · by_cases h1 : cp.numGroups = 1
    · simp [matchValueToStr, h0, h1]
    · simp [matchValueToStr, h0, h1]

/-- Witness for `claim_C6`: the `"The cat sat."` search itself. -/
theorem claim_C6_witness :
    ({ chapter_title := "T", file_name := "f", matched := "The",
       context := "The cat sat.", line_number := 1 } : SearchResult) ∈
      searchCompiled (literalCompiled true 't' ['h', 'e']) 1
        [{ title := "T", content := "The cat sat.", file_name := "f" }] ∧
    ((∃ ch ∈ [({ title := "T", content := "The cat sat.", file_name := "f" } : Chapter)],
      ∃ i, ∃ mp ∈ (literalCompiled true 't' ['h', 'e']).matchesOf
          ((splitNl ch.content).getD i ""),
      ({ chapter_title := "T", file_name := "f", matched := "The",
         context := "The cat sat.", line_number := 1 } : SearchResult).matched =
        if (literalCompiled true 't' ['h', 'e']).numGroups = 0 then mp.1
        else mp.2.getD 0 "") ∧
    searchCompiled (literalCompiled true 't' ['h', 'e']) 1
        [{ title := "T", content := "The cat sat.", file_name := "f" }] =
      [{ chapter_title := "T", file_name := "f", matched := "The",
         context := "The cat sat.", line_number := 1 }]) :=
  ⟨by decide,
    claim_C6 (literalCompiled true 't' ['h', 'e']) 1
      [{ title := "T", content := "The cat sat.", file_name := "f" }] _ (by decide)⟩

/-- A parse producing a single text node with an interior blank line
(e.g. the document `<p>a\n\nb</p>`). -/
def midBlankParse : String → Node :=
  fun _ => Node.elem "[document]" [Node.text "a\n\nb"]

/-- A parse producing a two-line text node. -/
def twoLineParse : String → Node :=
  fun _ => Node.elem "[document]" [Node.text "hello\nworld"]

/-- C7, counterexample: an extractor-reachable chapter whose content carries
an interior blank line (`"a\n\nb"`) satisfies the claim's proviso (it
neither starts nor ends with a blank line), yet splitting `full_text()` on
the blank-line separator yields `["a", "b"]`, not the original content; and
for a document with no chapters the split of the empty `full_text()` yields
`[""]`, not the empty list. -/
theorem claim_C7_counterexample :
    getChapters midBlankParse [{ file_name := "c1.xhtml", content := [97] }] =
      .ok [{ title := "c1.xhtml", content := "a\n\nb", file_name := "c1.xhtml" }] ∧
    ("a\n\nb").toList.head? ≠ some '\n' ∧
    ("a\n\nb").toList.getLast? ≠ some '\n' ∧
    getFullText midBlankParse [{ file_name := "c1.xhtml", content := [97] }] =
      .ok "a\n\nb" ∧
    splitBlank "a\n\nb" = ["a", "b"] ∧
    (["a", "b"] : List String) ≠ ["a\n\nb"] ∧
    splitBlank (joinBlank []) = [""] ∧
    (([""] : List String) ≠ []) :=
  ⟨rfl, by decide, by decide, rfl, by decide, by decide, by decide, by decide⟩

/-- C7 (amended): `full_text()` is the chapter contents in chapter order
joined by exactly one blank line, and splitting it on the blank-line
separator recovers every chapter's content provided there is at least one
chapter, no chapter's content contains two consecutive newlines anywhere,
and none ends with a newline. -/
theorem claim_C7_amended (parse : String → Node) (items : List EpubItem)
    (chs : List Chapter) (hok : getChapters parse items = .ok chs)
    (hne : chs ≠ [])
    (hc : ∀ ch ∈ chs, hasBlankPair ch.content.toList = false ∧
      ch.content.toList.getLast? ≠ some '\n') :
    getFullText parse items = .ok (joinBlank (chs.map (fun ch => ch.content))) ∧
    splitBlank (joinBlank (chs.map (fun ch => ch.content))) =
      chs.map (fun ch => ch.content) := by
  constructor
  · unfold getFullText
    rw [hok]
  · refine splitBlank_joinBlank _ (by simpa using hne) ?_
    intro x hx
    obtain ⟨ch, hch, rfl⟩ := List.mem_map.1 hx
    exact hc ch hch

/-- The chapter `twoLineParse` extraction yields. -/
def twoLineChapter : Chapter :=
  { title := "c1.xhtml", content := "hello\nworld", file_name := "c1.xhtml" }

/-- Witness for `claim_C7_amended` on a one-chapter book with a two-line
chapter. -/
theorem claim_C7_witness :
    getChapters twoLineParse [{ file_name := "c1.xhtml", content := [104] }] =
      .ok [twoLineChapter] ∧
    ([twoLineChapter] : List Chapter) ≠ [] ∧
    (getFullText twoLineParse [{ file_name := "c1.xhtml", content := [104] }] =
        .ok (joinBlank ([twoLineChapter].map (fun ch => ch.content))) ∧
      splitBlank (joinBlank ([twoLineChapter].map (fun ch => ch.content))) =
        [twoLineChapter].map (fun ch => ch.content)) :=
  ⟨rfl, by decide,
    claim_C7_amended twoLineParse [{ file_name := "c1.xhtml", content := [104] }]
      [twoLineChapter] rfl (by decide) (by decide)⟩

/-- C8, counterexample: two chapters sharing the title `"T"` (contents
`"a"`, one word, and `"b c"`, two words): `by_chapter` keeps only the later
chapter's count, so it does not report each chapter's count, although
`total` still sums over all chapters. -/
theorem claim_C8_counterexample :
    wordCount [{ title := "T", content := "a", file_name := "f1" },
               { title := "T", content := "b c", file_name := "f2" }] =
      (3, [("T", 2)]) ∧
    ¬ (∀ ch ∈ ([{ title := "T", content := "a", file_name := "f1" },
                { title := "T", content := "b c", file_name := "f2" }] : List Chapter),
        dictLookup ch.title
          (wordCount [{ title := "T", content := "a", file_name := "f1" },
                      { title := "T", content := "b c", file_name := "f2" }]).2 =
          some (pySplitWs ch.content).length) := by
  constructor
  · rfl
  · decide

/-- C8 (amended): when chapter titles are pairwise distinct, `word_count`
reports for each chapter, keyed by its title in chapter order, the number of
whitespace-delimited tokens of its content, and `total` is the sum of the
per-chapter counts. -/
theorem claim_C8_amended (chs : List Chapter)
    (h : (chs.map (fun ch => ch.title)).Nodup) :
    wordCount chs =
      ((chs.map (fun ch => (pySplitWs ch.content).length)).sum,
       chs.map (fun ch => (ch.title, (pySplitWs ch.content).length))) := by
  unfold wordCount
  rw [wordCount_foldl chs 0 [] h (by simp)]
  simp

/-- The spec's one-chapter `"one two three"` book. -/
def wordCountChapter : Chapter :=
  { title := "<title>", content := "one two three", file_name := "f" }

/-- Witness for `claim_C8_amended`: the spec's `"one two three"` scenario. -/
theorem claim_C8_witness :
    (([wordCountChapter] : List Chapter).map (fun ch => ch.title)).Nodup ∧
    wordCount [wordCountChapter] = (3, [("<title>", 3)]) :=
  ⟨by decide, (claim_C8_amended [wordCountChapter] (by decide)).trans (by decide)⟩

/-- C9: on a fresh handle, the first `.chapters` access runs extraction
exactly once and caches; a second access returns the identical value and
leaves the state untouched (a pure read, no re-parsing). -/
theorem claim_C9 (s : EpubQueryState) (h : s.cache = none) :
    (chaptersAcc (chaptersAcc s).2).1 = (chaptersAcc s).1 ∧
    (chaptersAcc s).2.parseCount = s.parseCount + 1 ∧
    (chaptersAcc (chaptersAcc s).2).2 = (chaptersAcc s).2 := by
  simp [chaptersAcc, h]

/-- Witness for `claim_C9` on a fresh concrete handle. -/
theorem claim_C9_witness :
    handleTwoChapters.cache = none ∧
    ((chaptersAcc (chaptersAcc handleTwoChapters).2).1 =
        (chaptersAcc handleTwoChapters).1 ∧
      (chaptersAcc handleTwoChapters).2.parseCount =
        handleTwoChapters.parseCount + 1 ∧
      (chaptersAcc (chaptersAcc handleTwoChapters).2).2 =
        (chaptersAcc handleTwoChapters).2) :=
  ⟨rfl, claim_C9 handleTwoChapters rfl⟩

/-- C10: every result's `line_number` lies between 1 and the number of
newline-split lines of its chapter's content; splitting the result's context
on newlines yields a list containing the chapter's line at index
`line_number - 1`; and any two results emitted for the same line of the same
chapter carry the same `line_number` and the same `context`. -/
theorem claim_C10 (re : ReModule) (s : EpubQueryState) (pat : String)
    (cs : Bool) (c : Nat) (rx : Bool) (rs : List SearchResult) (r : SearchResult)
    (hok : (searchSt re s pat cs c rx).1 = .ok rs) (hr : r ∈ rs) :
    (∃ ch ∈ (chaptersAcc s).1,
      1 ≤ r.line_number ∧ r.line_number ≤ (splitNl ch.content).length ∧
      (splitNl ch.content).getD (r.line_number - 1) "" ∈ splitNl r.context) ∧
    (∀ (cp : CompiledPattern) (ctx : Nat) (ch : Chapter) (lines : List String)
      (i : Nat) (r1 r2 : SearchResult),
      r1 ∈ lineResults cp ctx ch lines i → r2 ∈ lineResults cp ctx ch lines i →
      r1.line_number = r2.line_number ∧ r1.context = r2.context) := by
  constructor
  · obtain ⟨cp, hcomp, rfl⟩ := searchSt_ok re s pat cs c rx rs hok
    obtain ⟨ch, hch, i, hi, hline⟩ := mem_searchCompiled hr
    obtain ⟨m, hm, hrr⟩ := mem_lineResults hline
    subst hrr
    refine ⟨ch, hch, ?_, ?_, ?_⟩
    · show 1 ≤ i + 1
      omega
    · show i + 1 ≤ (splitNl ch.content).length
      omega
    · have hmem := getD_mem_slice (splitNl ch.content) i c hi
      have hnn : ∀ x ∈ ((splitNl ch.content).drop (i - c)).take
          (min (splitNl ch.content).length (i + c + 1) - (i - c)),
          '\n' ∉ x.toList := by
        intro x hx
        exact splitNl_no_nl ch.content x
          (List.drop_subset _ _ (List.take_subset _ _ hx))
      have hne : ((splitNl ch.content).drop (i - c)).take
          (min (splitNl ch.content).length (i + c + 1) - (i - c)) ≠ [] :=
        List.ne_nil_of_mem hmem
      show (splitNl ch.content).getD (i + 1 - 1) "" ∈ splitNl (joinNl _)
      rw [splitNl_joinNl _ hne hnn]
      simpa using hmem
  · intro cp ctx ch lines i r1 r2 h1 h2
    obtain ⟨m1, hm1, hr1⟩ := mem_lineResults h1
    obtain ⟨m2, hm2, hr2⟩ := mem_lineResults h2
    subst hr1
    subst hr2
    exact ⟨rfl, rfl⟩

/-- Witness for `claim_C10` on the sample search over `handleTwoChapters`. -/
theorem claim_C10_witness :
    (searchSt toyRe handleTwoChapters "line" false 1 false).1 =
      .ok [sampleResult1, sampleResult2, sampleResult3] ∧
    sampleResult2 ∈ [sampleResult1, sampleResult2, sampleResult3] ∧
    (∃ ch ∈ (chaptersAcc handleTwoChapters).1,
      1 ≤ sampleResult2.line_number ∧
      sampleResult2.line_number ≤ (splitNl ch.content).length ∧
      (splitNl ch.content).getD (sampleResult2.line_number - 1) "" ∈
        splitNl sampleResult2.context) :=
  ⟨rfl, by decide,
    (claim_C10 toyRe handleTwoChapters "line" false 1 false
      [sampleResult1, sampleResult2, sampleResult3] sampleResult2 rfl (by decide)).1⟩
